import Mathlib

/-!
Verification of the world-info activation policy of the Acsus-Paws-Puffs
extension: the activation predicate `shouldActivateItem`, its keyword
matcher `matchKeys`, and the entry-construction defaults of
`addSingleEntry`.

Strings are modelled as `List Char`.  The JavaScript regular-expression
test used in whole-word mode is modelled by its match semantics: the
pattern built by the source is an alternation of literally-escaped
keywords wrapped in word-boundary assertions, so the test succeeds
exactly when some keyword occurs at some position of the text flanked by
word boundaries.  `toLowerCase` is modelled by `Char.toLower`, which
agrees with it on the ASCII texts considered here.  The random draw
`Math.random() * 100` and the chat obtained from `getContext()` are
passed as explicit arguments.  Logger calls are observed as a count of
`logger.warn` invocations in the result.
-/

namespace PawsPuffs

/-- A chat message as read by the activation scan.  The `mes` field may be
absent; the source substitutes the empty string (`m.mes || ''`). -/
structure Message where
  mes : Option (List Char)
deriving DecidableEq

/-- `m.mes || ''` -/
def mesText (m : Message) : List Char := m.mes.getD []

/-- JS word character `\w`, i.e. `[A-Za-z0-9_]`. -/
def isWordChar (c : Char) : Bool := c.isAlphanum || c == '_'

/-- Whether the character at position `i` of `s` is a word character
(out-of-range positions count as non-word). -/
def wordAt (s : List Char) (i : Nat) : Bool :=
  match s[i]? with
  | some c => isWordChar c
  | none => false

/-- The JS word-boundary assertion `\b` at position `i` of `s`: it holds
when exactly one of the adjacent sides is a word character (the edges of
the string count as non-word). -/
def boundaryAt (s : List Char) (i : Nat) : Bool :=
  (match i with
   | 0 => false
   | Nat.succ j => wordAt s j) != wordAt s i

/-- Keyword `k` matches at position `i` of `s` with word boundaries on
both sides: one alternative of the regex `\b(k1|k2|...)\b` succeeding at
start position `i`. -/
def matchWholeAt (s k : List Char) (i : Nat) : Bool :=
  k.isPrefixOf (s.drop i) && boundaryAt s i && boundaryAt s (i + k.length)

/-- `regex.test` for the pattern `\b(k)\b` with `k` escaped to a literal:
true when `k` occurs somewhere in `s` flanked by word boundaries. -/
def wholeWordKey (s k : List Char) : Bool :=
  (List.range (s.length + 1)).any (fun i => matchWholeAt s k i)

/-- JS `String.prototype.includes`: `pat` occurs as a contiguous
substring of `s` (the empty pattern always occurs). -/
def jsIncludes (s pat : List Char) : Bool :=
  match s with
  | [] => pat.isEmpty
  | c :: rest => pat.isPrefixOf (c :: rest) || jsIncludes rest pat

/-- `toLowerCase`, on ASCII text. -/
def lower (s : List Char) : List Char := s.map Char.toLower

/-- `matchKeys(text, keys, caseSensitive, wholeWords)` of the source:
empty key list never matches; otherwise text and keys are lower-cased
unless case-sensitive; whole-word mode tests the single alternation
regex `\b(k1|...|kn)\b` built from the escaped keys (which succeeds when
any key matches at a word boundary), substring mode asks whether some
key is included in the text. -/
def matchKeys (text : List Char) (keys : List (List Char))
    (caseSensitive wholeWords : Bool) : Bool :=
  if keys.isEmpty then false
  else
    let searchText := if caseSensitive then text else lower text
    let searchKeys := if caseSensitive then keys else keys.map lower
    if wholeWords then
      searchKeys.any (fun k => wholeWordKey searchText k)
    else
      searchKeys.any (fun k => jsIncludes searchText k)

/-- A selected world-info entry, with the fields `shouldActivateItem`
reads.  `probability` and `scan_depth` are optional because the source
tolerates their absence (`item.probability < 100` is false for a missing
probability, and `item.scan_depth || 10` defaults a missing or zero scan
depth).  A missing `key`/`keysecondary` behaves exactly like `[]` in the
source (`!item.key || item.key.length === 0`, `item.key || []`), so both
are modelled as plain lists. -/
structure Item where
  constant : Bool
  disable : Bool
  probability : Option ℚ
  key : List (List Char)
  keysecondary : List (List Char)
  case_sensitive : Bool
  match_whole_words : Bool
  scan_depth : Option Nat
deriving DecidableEq

/-- The observable outcome of one evaluation: the boolean decision and
the number of `logger.warn` calls made. -/
structure ActivationResult where
  activate : Bool
  warns : Nat
deriving DecidableEq

/-- Step 3 of the source: the probability gate returns early with
`false` exactly when `item.probability < 100` and the roll exceeds it.
A missing probability makes `item.probability < 100` false in JS, so the
gate is skipped. -/
def probFails (prob : Option ℚ) (roll : ℚ) : Bool :=
  match prob with
  | none => false
  | some p => decide (p < 100) && decide (roll > p)

/-- `item.scan_depth || 10`: missing or zero scan depth defaults to 10. -/
def effScanDepth (sd : Option Nat) : Nat :=
  match sd with
  | none => 10
  | some d => if d = 0 then 10 else d

/-- `chat.slice(-scanDepth)`: the last `scanDepth` messages, all of them
when fewer are available. -/
def recentWindow (sd : Option Nat) (chat : List Message) : List Message :=
  chat.drop (chat.length - effScanDepth sd)

/-- `.join(' ')`: concatenation with a single-space separator. -/
def joinSpace : List (List Char) → List Char
  | [] => []
  | [s] => s
  | s :: rest => s ++ (' ') :: joinSpace rest

/-- The search corpus of steps 5: text fields of the recent window,
oldest first, joined with single spaces. -/
def corpusOf (sd : Option Nat) (chat : List Message) : List Char :=
  joinSpace ((recentWindow sd chat).map mesText)

/-- Steps 4-6 of `shouldActivateItem`: warn and refuse when both key
lists are empty, otherwise match the primary keys and (when non-empty)
the secondary keys against the corpus and activate on either. -/
def keywordPhase (item : Item) (chat : List Message) : ActivationResult :=
  if item.key.isEmpty && item.keysecondary.isEmpty then
    { activate := false, warns := 1 }
  else
    let searchText := corpusOf item.scan_depth chat
    let primaryMatch :=
      matchKeys searchText item.key item.case_sensitive item.match_whole_words
    let secondaryMatch :=
      if item.keysecondary.isEmpty then false
      else matchKeys searchText item.keysecondary item.case_sensitive
        item.match_whole_words
    { activate := primaryMatch || secondaryMatch, warns := 0 }

/-- `shouldActivateItem(item)` of the source, with the chat transcript
and the probability roll passed explicitly: constant entries activate
unconditionally, disabled entries never do, the probability gate may
refuse, and otherwise the keyword phase decides. -/
def shouldActivateItem (item : Item) (chat : List Message) (roll : ℚ) :
    ActivationResult :=
  if item.constant then { activate := true, warns := 0 }
  else if item.disable then { activate := false, warns := 0 }
  else if probFails item.probability roll then { activate := false, warns := 0 }
  else keywordPhase item chat

/-- The host entry data consumed by `addSingleEntry`, restricted to the
fields that feed the matching-relevant fields of the stored item.
`ext_*` fields stand for `entryData.extensions?.*`; a missing
`extensions` object and a missing field inside it both appear as
`none`. -/
structure EntryData where
  key : Option (List (List Char))
  keysecondary : Option (List (List Char))
  constant : Option Bool
  disable : Option Bool
  ext_probability : Option ℚ
  ext_scan_depth : Option Nat
  ext_case_sensitive : Option Bool
  ext_match_whole_words : Option Bool
deriving DecidableEq

/-- JS `v || d` on a numeric field: a missing or zero value (both falsy)
yields the default. -/
def jsNumOr (v : Option ℚ) (d : ℚ) : ℚ :=
  match v with
  | none => d
  | some x => if x = 0 then d else x

/-- The object `addSingleEntry` pushes onto `selectedItems`, restricted
to the matching-relevant fields: `probability:
entryData.extensions?.probability || 100`, `scan_depth:
entryData.extensions?.scan_depth || null`, booleans defaulted with
`|| false`, key lists with `|| []`. -/
def addSingleEntryStored (e : EntryData) : Item :=
  { constant := e.constant.getD false
    disable := e.disable.getD false
    probability := some (jsNumOr e.ext_probability 100)
    key := e.key.getD []
    keysecondary := e.keysecondary.getD []
    case_sensitive := e.ext_case_sensitive.getD false
    match_whole_words := e.ext_match_whole_words.getD false
    scan_depth :=
      match e.ext_scan_depth with
      | none => none
      | some d => if d = 0 then none else some d }

/-- A message whose text is `s`. -/
def msg (s : List Char) : Message := ⟨some s⟩

/-- A keyword-mode entry with no keywords and probability 50. -/
def noKeyItem : Item := ⟨false, false, some 50, [], [], false, false, none⟩

/-- A 50%-probability entry with one keyword. -/
def gateItem : Item := ⟨false, false, some 50, [['k']], [], false, false, none⟩

/-- An entry scanning only the last 2 messages for the keyword `key`. -/
def depthItem : Item := ⟨false, false, some 100, [['k','e','y']], [], false, false, some 2⟩

/-- Ten messages; only the 3rd-from-the-end contains `key`. -/
def depthChat : List Message :=
  [msg ['x'], msg ['x'], msg ['x'], msg ['x'], msg ['x'], msg ['x'], msg ['x'],
   msg ['k','e','y'], msg ['x'], msg ['x']]

/-- Primary key `alpha`, secondary key `beta`. -/
def orItem : Item :=
  ⟨false, false, some 100, [['a','l','p','h','a']], [['b','e','t','a']], false, false, none⟩

/-- A one-message chat reading `beta here`. -/
def orChat : List Message := [msg ['b','e','t','a',' ','h','e','r','e']]

/-- An entry whose only primary keyword is the empty string. -/
def emptyKeyItem : Item := ⟨false, false, some 100, [[]], [], false, false, none⟩

/-- An entry with the single non-empty keyword `a`. -/
def plainItem : Item := ⟨false, false, none, [['a']], [], false, false, none⟩

/-- An entry with scan depth 1 and keyword `hi`. -/
def frameItem : Item := ⟨false, false, some 100, [['h','i']], [], false, false, some 1⟩

/-- A one-message chat ending in `hi`. -/
def frameChatA : List Message := [msg ['h','i']]

/-- A two-message chat ending in the same `hi` message. -/
def frameChatB : List Message := [msg ['y','o'], msg ['h','i']]

/-- Host entry data whose extensions carry probability 0 and scan depth 0. -/
def probeEntry : EntryData := ⟨none, none, none, none, some 0, some 0, none, none⟩



theorem isPrefixOf_take (pat l : List Char) :
    pat.isPrefixOf l = true ↔ l.take pat.length = pat := by
  induction pat generalizing l with
  | nil => simp [List.isPrefixOf]
  | cons a as ih =>
    cases l with
    | nil => simp [List.isPrefixOf]
    | cons b bs =>
      simp only [List.isPrefixOf, Bool.and_eq_true, beq_iff_eq, ih,
        List.length_cons, List.take_succ_cons, List.cons.injEq]
      constructor <;> exact fun h => ⟨h.1.symm, h.2⟩

theorem jsIncludes_iff (s pat : List Char) :
    jsIncludes s pat = true ↔ ∃ i, (s.drop i).take pat.length = pat := by
  induction s with
  | nil =>
    simp only [jsIncludes, List.drop_nil, List.take_nil, List.isEmpty_iff]
    constructor
    · intro h; exact ⟨0, h.symm⟩
    · rintro ⟨i, h⟩; exact h.symm
  | cons c rest ih =>
    simp only [jsIncludes, Bool.or_eq_true, ih, isPrefixOf_take]
    constructor
    · rintro (h | ⟨i, h⟩)
      · exact ⟨0, by simpa using h⟩
      · exact ⟨i + 1, by simpa using h⟩
    · rintro ⟨i, h⟩
      cases i with
      | zero => exact Or.inl (by simpa using h)
      | succ j => exact Or.inr ⟨j, by simpa using h⟩

theorem matchWholeAt_of_gt (s k : List Char) (i : Nat) (h : s.length < i) :
    matchWholeAt s k i = false := by
  cases i with
  | zero => exact absurd h (Nat.not_lt_zero _)
  | succ j =>
    have hj : s.length ≤ j := Nat.lt_succ_iff.mp h
    have h1 : wordAt s j = false := by
      unfold wordAt
      rw [List.getElem?_eq_none hj]
    have h2 : wordAt s (j + 1) = false := by
      unfold wordAt
      rw [List.getElem?_eq_none (Nat.le_succ_of_le hj)]
    simp [matchWholeAt, boundaryAt, h1, h2]

theorem wholeWordKey_iff (s k : List Char) :
    wholeWordKey s k = true ↔ ∃ i, matchWholeAt s k i = true := by
  unfold wholeWordKey
  rw [List.any_eq_true]
  constructor
  · rintro ⟨i, _, h⟩; exact ⟨i, h⟩
  · rintro ⟨i, h⟩
    refine ⟨i, List.mem_range.mpr ?_, h⟩
    by_contra hc
    rw [matchWholeAt_of_gt s k i (by omega)] at h
    exact Bool.false_ne_true h

theorem matchWholeAt_iff (s k : List Char) (i : Nat) :
    matchWholeAt s k i = true ↔
      (s.drop i).take k.length = k ∧ boundaryAt s i = true ∧
        boundaryAt s (i + k.length) = true := by
  simp only [matchWholeAt, Bool.and_eq_true, isPrefixOf_take, and_assoc]

theorem matchKeys_substring_iff (text : List Char) (keys : List (List Char)) :
    matchKeys text keys true false = true ↔
      ∃ k ∈ keys, ∃ i, (text.drop i).take k.length = k := by
  cases keys with
  | nil => simp [matchKeys]
  | cons k ks =>
    simp only [matchKeys, List.isEmpty_cons, if_true, if_false, Bool.false_eq_true,
      ite_false, ite_true]
    simp [List.any_eq_true, jsIncludes_iff]

theorem matchKeys_wholeword_iff (text : List Char) (keys : List (List Char)) :
    matchKeys text keys true true = true ↔
      ∃ k ∈ keys, ∃ i, (text.drop i).take k.length = k ∧
        boundaryAt text i = true ∧ boundaryAt text (i + k.length) = true := by
  cases keys with
  | nil => simp [matchKeys]
  | cons k ks =>
    simp only [matchKeys, List.isEmpty_cons, Bool.false_eq_true, ite_false, ite_true]
    simp [List.any_eq_true, wholeWordKey_iff, matchWholeAt_iff]

theorem wordAt_nil (i : Nat) : wordAt [] i = false := by
  simp [wordAt]

theorem boundaryAt_nil (i : Nat) : boundaryAt [] i = false := by
  cases i <;> simp [boundaryAt, wordAt_nil]

theorem wholeWordKey_nil (k : List Char) : wholeWordKey [] k = false := by
  rw [wholeWordKey]
  simp [matchWholeAt, boundaryAt_nil]

theorem jsIncludes_nil (pat : List Char) (h : pat ≠ []) :
    jsIncludes [] pat = false := by
  cases pat with
  | nil => exact absurd rfl h
  | cons c cs => rfl

theorem lower_eq_nil (k : List Char) : lower k = [] ↔ k = [] := by
  simp [lower]

theorem matchKeys_nil_whole (keys : List (List Char)) (cs : Bool) :
    matchKeys [] keys cs true = false := by
  cases keys with
  | nil => simp [matchKeys]
  | cons k ks =>
    simp [matchKeys, lower, wholeWordKey_nil]

theorem matchKeys_nil_sub (keys : List (List Char)) (cs : Bool)
    (h : [] ∉ keys) : matchKeys [] keys cs false = false := by
  cases keys with
  | nil => simp [matchKeys]
  | cons k ks =>
    cases cs with
    | true =>
      simp only [matchKeys, List.isEmpty_cons, Bool.false_eq_true, if_false,
        if_true, ite_true, ite_false, List.any_eq_false]
      intro x hx h0
      have hne : x ≠ [] := fun he => h (he ▸ hx)
      rw [jsIncludes_nil x hne] at h0
      exact Bool.false_ne_true h0
    | false =>
      simp only [matchKeys, List.isEmpty_cons, Bool.false_eq_true, if_false,
        if_true, ite_true, ite_false, List.any_eq_false]
      intro x hx h0
      rcases List.mem_map.mp hx with ⟨y, hy, rfl⟩
      have hy0 : y ≠ [] := fun he => h (he ▸ hy)
      have hne : lower y ≠ [] := fun he => hy0 ((lower_eq_nil y).mp he)
      have h0' : jsIncludes [] (lower y) = true := h0
      rw [jsIncludes_nil (lower y) hne] at h0'
      exact Bool.false_ne_true h0'



theorem matchKeys_nil_of_ne (keys : List (List Char)) (cs ww : Bool)
    (h : [] ∉ keys) : matchKeys [] keys cs ww = false := by
  cases ww with
  | true => exact matchKeys_nil_whole keys cs
  | false => exact matchKeys_nil_sub keys cs h

/-- C1, counterexample: an entry with empty `key` and `keysecondary`,
`constant = false`, `disable = false` and `probability = 50` evaluated with a
roll of 80 is refused by the probability gate before the keyword step is
reached, so no warning is surfaced at all on that draw — refuting "a warning
is emitted exactly once per evaluation, for every random draw". -/
theorem warn_skipped_by_probability_cex :
    shouldActivateItem noKeyItem [] 80 = ⟨false, 0⟩ := by decide

/-- C1, amended: for every entry with empty `key` and `keysecondary`,
`constant = false` and `disable = false`, activation is false for every chat
and every roll; the warning is surfaced exactly once per evaluation that
passes the probability gate, and not at all when the gate refuses first. -/
theorem no_keyword_entry_spec (item : Item) (chat : List Message) (roll : ℚ)
    (hk : item.key = []) (hk2 : item.keysecondary = [])
    (hc : item.constant = false) (hd : item.disable = false) :
    (shouldActivateItem item chat roll).activate = false ∧
    (shouldActivateItem item chat roll).warns =
      (if probFails item.probability roll then 0 else 1) := by
  simp only [shouldActivateItem, hc, hd, keywordPhase, hk, hk2]
  cases hpf : probFails item.probability roll <;> simp [hpf]

/-- C1 witness: the amended theorem applied to a concrete no-keyword entry
and a roll of 20, which passes the 50% gate, so exactly one warning. -/
theorem no_keyword_entry_spec_wit :
    (shouldActivateItem noKeyItem [] 20).activate = false ∧
    (shouldActivateItem noKeyItem [] 20).warns =
      (if probFails noKeyItem.probability 20 then 0 else 1) :=
  no_keyword_entry_spec noKeyItem [] 20 rfl rfl rfl rfl

/-- C2: for a non-constant, non-disabled entry with probability `p` and a
roll drawn from [0,100), the evaluation returns false with no warning —
without consulting keywords or chat — exactly when the roll exceeds `p`, and
otherwise is decided entirely by the keyword phase; for `p = 100` the roll is
always at most `p`, so the gate never blocks. -/
theorem probability_gate_spec (item : Item) (chat : List Message) (roll p : ℚ)
    (hc : item.constant = false) (hd : item.disable = false)
    (hp : item.probability = some p) (_hr : 0 ≤ roll) (h1 : roll < 100) :
    (p < roll → shouldActivateItem item chat roll = ⟨false, 0⟩) ∧
    (roll ≤ p → shouldActivateItem item chat roll = keywordPhase item chat) := by
  constructor
  · intro h
    have hg : probFails item.probability roll = true := by
      rw [hp]
      simp only [probFails, Bool.and_eq_true, decide_eq_true_eq]
      exact ⟨lt_trans h h1, h⟩
    simp [shouldActivateItem, hc, hd, hg]
  · intro h
    have hg : probFails item.probability roll = false := by
      rw [hp]
      simp only [probFails, Bool.and_eq_false_iff, decide_eq_false_iff_not, not_lt]
      exact Or.inr h
    simp [shouldActivateItem, hc, hd, hg]

/-- C2 witness: a 50%-probability keyword entry with a roll of 80 is
refused by the gate. -/
theorem probability_gate_spec_wit :
    shouldActivateItem gateItem [] 80 = ⟨false, 0⟩ :=
  (probability_gate_spec gateItem [] 80 50 rfl rfl rfl (by norm_num)
    (by norm_num)).1 (by norm_num)

/-- C3: the scanned window is a suffix of the chat of length
`min scan_depth history` (so a scan depth larger than the history clips to
the whole history, in original order), the corpus joins the window's texts
with a single space, and concretely an entry with `scan_depth = 2` does not
activate on a keyword occurring only in the message 3-from-the-end of a
10-message chat. -/
theorem scan_window_spec :
    (∀ sd chat, recentWindow sd chat <:+ chat ∧
      (recentWindow sd chat).length = min (effScanDepth sd) chat.length) ∧
    (∀ sd chat, chat.length ≤ effScanDepth sd → recentWindow sd chat = chat) ∧
    (∀ a b : List Char, joinSpace [a, b] = a ++ (' ') :: b) ∧
    (shouldActivateItem depthItem depthChat 0).activate = false := by
  refine ⟨fun sd chat => ⟨List.drop_suffix _ _, ?_⟩, fun sd chat h => ?_, fun a b => rfl, by decide⟩
  · rw [recentWindow, List.length_drop]
    omega
  · rw [recentWindow, Nat.sub_eq_zero_of_le h, List.drop_zero]

/-- C3 witness: a scan depth of 20 over the concrete 10-message chat clips
to the whole chat. -/
theorem scan_window_spec_wit : recentWindow (some 20) depthChat = depthChat :=
  scan_window_spec.2.1 (some 20) depthChat (by decide)

/-- C4: whole-word mode with keyword `cat` rejects corpus `category` but
accepts `the cat sat`, while substring mode accepts `category`; in general
substring mode succeeds exactly when some keyword occurs contiguously in the
corpus, and whole-word mode (the alternation regex over the literally escaped
keywords) succeeds exactly when some keyword occurs flanked by word
boundaries. -/
theorem matchKeys_modes_spec :
    matchKeys ['c','a','t','e','g','o','r','y'] [['c','a','t']] false true = false ∧
    matchKeys ['t','h','e',' ','c','a','t',' ','s','a','t'] [['c','a','t']] false true = true ∧
    matchKeys ['c','a','t','e','g','o','r','y'] [['c','a','t']] false false = true ∧
    (∀ text keys, matchKeys text keys true false = true ↔
      ∃ k ∈ keys, ∃ i, (text.drop i).take k.length = k) ∧
    (∀ text keys, matchKeys text keys true true = true ↔
      ∃ k ∈ keys, ∃ i, (text.drop i).take k.length = k ∧
        boundaryAt text i = true ∧ boundaryAt text (i + k.length) = true) :=
  ⟨by decide, by decide, by decide,
   fun text keys => matchKeys_substring_iff text keys,
   fun text keys => matchKeys_wholeword_iff text keys⟩

/-- C5: for entries reaching the keyword step, activation is the OR of the
primary-key match and the secondary-key match when `keysecondary` is
non-empty, and just the primary-key match when it is empty; concretely the
`alpha`/`beta` entry activates against the corpus `beta here` through its
secondary key alone. -/
theorem secondary_or_spec :
    (∀ item chat, item.keysecondary ≠ [] →
      (keywordPhase item chat).activate =
        (matchKeys (corpusOf item.scan_depth chat) item.key
            item.case_sensitive item.match_whole_words ||
          matchKeys (corpusOf item.scan_depth chat) item.keysecondary
            item.case_sensitive item.match_whole_words)) ∧
    (∀ item chat, item.keysecondary = [] →
      (keywordPhase item chat).activate =
        matchKeys (corpusOf item.scan_depth chat) item.key
          item.case_sensitive item.match_whole_words) ∧
    (shouldActivateItem orItem orChat 0).activate = true := by
  refine ⟨fun item chat h => ?_, fun item chat h => ?_, by decide⟩
  · cases hsec : item.keysecondary with
    | nil => exact absurd hsec h
    | cons k ks => simp [keywordPhase, hsec]
  · cases hk : item.key with
    | nil => simp [keywordPhase, hk, h, matchKeys]
    | cons k ks => simp [keywordPhase, hk, h, matchKeys]

/-- C5 witness: the OR decomposition instantiated at the concrete
`alpha`/`beta` entry. -/
theorem secondary_or_spec_wit :
    (keywordPhase orItem orChat).activate =
      (matchKeys (corpusOf orItem.scan_depth orChat) orItem.key
          orItem.case_sensitive orItem.match_whole_words ||
        matchKeys (corpusOf orItem.scan_depth orChat) orItem.keysecondary
          orItem.case_sensitive orItem.match_whole_words) :=
  secondary_or_spec.1 orItem orChat (by decide)

/-- C6: `constant = true` activates unconditionally (whatever `disable`,
probability, keys or chat), and `constant = false` with `disable = true`
refuses unconditionally; neither path warns. -/
theorem constant_disable_spec :
    (∀ item chat roll, item.constant = true →
      shouldActivateItem item chat roll = ⟨true, 0⟩) ∧
    (∀ item chat roll, item.constant = false → item.disable = true →
      shouldActivateItem item chat roll = ⟨false, 0⟩) := by
  constructor
  · intro item chat roll h
    simp [shouldActivateItem, h]
  · intro item chat roll hc hd
    simp [shouldActivateItem, hc, hd]

/-- C6 witness: a constant entry activates even though it is also
disabled, showing `constant` is checked first. -/
theorem constant_disable_spec_wit :
    shouldActivateItem ⟨true, true, some 0, [], [], false, false, none⟩ [] 0 =
      ⟨true, 0⟩ :=
  constant_disable_spec.1 ⟨true, true, some 0, [], [], false, false, none⟩ [] 0 rfl

/-- C7, counterexample: on the empty corpus the substring check succeeds
for the empty keyword (JS string includes of the empty pattern is true), so a
non-constant, non-disabled entry whose primary key list holds one empty
keyword activates on an empty chat — refuting the claim that both checks fail
to match for every keyword list. -/
theorem empty_corpus_cex :
    matchKeys [] [[]] false false = true ∧
    (shouldActivateItem emptyKeyItem [] 0).activate = true := by decide

/-- C7, amended: on the empty corpus the whole-word check fails for every
keyword list and the substring check fails for every keyword list containing
no empty keyword; hence a non-constant, non-disabled entry with no empty
keyword never activates on an empty chat. -/
theorem empty_corpus_spec :
    (∀ keys cs, matchKeys [] keys cs true = false) ∧
    (∀ keys cs, [] ∉ keys → matchKeys [] keys cs false = false) ∧
    (∀ item roll, item.constant = false → item.disable = false →
      [] ∉ item.key → [] ∉ item.keysecondary →
      (shouldActivateItem item [] roll).activate = false) := by
  refine ⟨matchKeys_nil_whole, matchKeys_nil_sub, fun item roll hc hd hk hk2 => ?_⟩
  have hcorp : corpusOf item.scan_depth [] = [] := by
    simp [corpusOf, recentWindow, joinSpace]
  simp only [shouldActivateItem, hc, hd]
  cases hpf : probFails item.probability roll with
  | true => simp
  | false =>
    simp only [Bool.false_eq_true, if_false, ite_false, ite_true, keywordPhase, hcorp]
    by_cases hg : item.key.isEmpty && item.keysecondary.isEmpty
    · simp [hg]
    · simp only [hg, if_false, ite_false]
      rw [matchKeys_nil_of_ne item.key item.case_sensitive item.match_whole_words hk]
      cases hsec : item.keysecondary with
      | nil => simp
      | cons k ks =>
        rw [hsec] at hk2
        simp [matchKeys_nil_of_ne (k :: ks) item.case_sensitive
          item.match_whole_words hk2]

/-- C7 witness: a concrete keyword entry does not activate on the empty
chat. -/
theorem empty_corpus_spec_wit :
    (shouldActivateItem plainItem [] 0).activate = false :=
  empty_corpus_spec.2.2 plainItem 0 rfl rfl (by decide) (by decide)

/-- C8: evaluation is a pure function of the entry, the recent-message
window and the roll — two chats with the same scanned window produce
identical results (the embedding is state-free because the source mutates
neither the entry nor any chat message). -/
theorem activation_frame_spec (item : Item) (c1 c2 : List Message) (roll : ℚ)
    (h : recentWindow item.scan_depth c1 = recentWindow item.scan_depth c2) :
    shouldActivateItem item c1 roll = shouldActivateItem item c2 roll := by
  simp [shouldActivateItem, keywordPhase, corpusOf, h]

/-- C8 witness: two different chats sharing the same last message under a
scan depth of 1 evaluate identically. -/
theorem activation_frame_spec_wit :
    shouldActivateItem frameItem frameChatA 0 =
      shouldActivateItem frameItem frameChatB 0 :=
  activation_frame_spec frameItem frameChatA frameChatB 0 (by decide)

/-- C9: the predicate is total over well-formed input and missing numeric
fields default safely: a missing probability behaves exactly like
probability 100 (the gate never blocks), and a missing scan depth behaves
exactly like scan depth 10. -/
theorem defaults_spec :
    (∀ (item : Item) (chat : List Message) (roll : ℚ),
      shouldActivateItem { item with probability := none } chat roll =
        shouldActivateItem { item with probability := some 100 } chat roll) ∧
    (∀ (item : Item) (chat : List Message) (roll : ℚ),
      shouldActivateItem { item with scan_depth := none } chat roll =
        shouldActivateItem { item with scan_depth := some 10 } chat roll) := by
  constructor
  · intro item chat roll
    have h1 : probFails none roll = false := rfl
    have h2 : probFails (some 100) roll = false := by
      simp [probFails]
    simp [shouldActivateItem, h1, h2, keywordPhase, corpusOf]
  · intro item chat roll
    have h3 : effScanDepth none = effScanDepth (some 10) := rfl
    simp [shouldActivateItem, keywordPhase, corpusOf, recentWindow, h3]

/-- C10: the item stored by addSingleEntry never has probability 0 — an
extensions probability of 0 is clobbered to 100 by the falsy default, so such
an entry is never blocked by the probability gate — and the same falsy
pattern stores an extensions scan depth of 0 as null, which the evaluation
then defaults to 10. -/
theorem addSingleEntry_defaults_spec (e : EntryData) (roll : ℚ) :
    (addSingleEntryStored e).probability ≠ some 0 ∧
    (e.ext_probability = some 0 →
      (addSingleEntryStored e).probability = some 100 ∧
      probFails (addSingleEntryStored e).probability roll = false) ∧
    (e.ext_scan_depth = some 0 →
      (addSingleEntryStored e).scan_depth = none ∧
      effScanDepth (addSingleEntryStored e).scan_depth = 10) := by
  refine ⟨?_, fun hp => ?_, fun hs => ?_⟩
  · simp only [addSingleEntryStored, ne_eq, Option.some.injEq]
    cases hp : e.ext_probability with
    | none => simp [jsNumOr]
    | some x =>
      by_cases hx : x = 0 <;> simp [jsNumOr, hx]
  · constructor
    · simp [addSingleEntryStored, jsNumOr, hp]
    · simp [addSingleEntryStored, jsNumOr, hp, probFails]
  · constructor
    · simp [addSingleEntryStored, hs]
    · simp [addSingleEntryStored, hs, effScanDepth]

/-- C10 witness: an entry whose extensions carry probability 0 is stored
with probability 100 and passes the gate on every roll. -/
theorem addSingleEntry_defaults_spec_wit :
    (addSingleEntryStored probeEntry).probability = some 100 ∧
    probFails (addSingleEntryStored probeEntry).probability 0 = false :=
  (addSingleEntry_defaults_spec probeEntry 0).2.1 rfl

end PawsPuffs
